import Mathlib

/-!
Verification of the generation-orchestration subsystem of the
comfy-ui-telegram-bot repository against its natural-language specification.

Each Go component is shallowly embedded as executable Lean definitions:

* `UserLimiter` (package `limiter`): per-actor admission control.
* The Go error chain (`package errors`, `fmt.Errorf` wrapping) and the
  repository's `UserError` taxonomy.
* The ComfyUI client (`package comfyui`): workflow template handling
  (`Load` / `PrepareWorkflow` / `sanitizeForJSON`), prompt submission
  (`QueuePrompt`), the WebSocket execution monitor (`WaitForCompletion`),
  and output resolution inside `GenerateImage`.

Machine strings are modelled as `List Char`; Go `int`/`int64` as `Int`;
JSON documents as an explicit syntax tree with an executable parser
standing for `encoding/json`.
-/

set_option maxHeartbeats 1000000

namespace ComfyBot

/-! ## UserLimiter (package limiter)

The Go struct holds `activeUsers map[int64]struct{}`, `maxGlobal int` and
`globalCount int`, all mutations guarded by one mutex.  The mutex
serializes every operation, so the behaviour is exactly a sequential fold
of operations over the state; we embed the state with the user set as a
duplicate-free list. -/
structure UserLimiter where
  activeUsers : List Int
  maxGlobal : Int
  globalCount : Int
deriving DecidableEq, Repr

/-- Go `NewUserLimiter`: empty set, counter zero. -/
def NewUserLimiter (maxGlobalConcurrent : Int) : UserLimiter :=
  { activeUsers := [], maxGlobal := maxGlobalConcurrent, globalCount := 0 }

/-- Go `TryAcquire`: reject if the user already holds a slot, or if the global
cap (when positive) is reached; otherwise insert the user and increment the
counter.  Returns the Go function's boolean and the post state. -/
def UserLimiter.tryAcquire (l : UserLimiter) (userID : Int) : Bool × UserLimiter :=
  if userID ∈ l.activeUsers then
    (false, l)
  else if l.maxGlobal > 0 ∧ l.globalCount ≥ l.maxGlobal then
    (false, l)
  else
    (true, { l with activeUsers := userID :: l.activeUsers,
                    globalCount := l.globalCount + 1 })

/-- Go `Release`: remove the user and decrement the counter only when the user
is present; otherwise a no-op. -/
def UserLimiter.release (l : UserLimiter) (userID : Int) : UserLimiter :=
  if userID ∈ l.activeUsers then
    { l with activeUsers := l.activeUsers.erase userID,
             globalCount := l.globalCount - 1 }
  else l

/-- Go `ActiveCount`: the counter. -/
def UserLimiter.activeCount (l : UserLimiter) : Int := l.globalCount

/-- Go `IsUserActive`: membership in the active set. -/
def UserLimiter.isUserActive (l : UserLimiter) (userID : Int) : Bool :=
  userID ∈ l.activeUsers

/-- One call against the limiter (the boolean result of `TryAcquire` is
discarded when running a sequence). -/
inductive LimiterOp where
  | tryAcquire (userID : Int)
  | release (userID : Int)
deriving DecidableEq, Repr

def applyOp (l : UserLimiter) : LimiterOp → UserLimiter
  | .tryAcquire userID => (l.tryAcquire userID).2
  | .release userID => l.release userID

def runOps : UserLimiter → List LimiterOp → UserLimiter
  | l, [] => l
  | l, op :: ops => runOps (applyOp l op) ops

/-- State invariant maintained by every limiter operation: the counter
mirrors the set's size, the set is duplicate-free, the configured cap is
never mutated, and a positive cap bounds the counter. -/
def LimiterInv (m : Int) (l : UserLimiter) : Prop :=
  l.globalCount = (l.activeUsers.length : Int) ∧
  l.activeUsers.Nodup ∧
  l.maxGlobal = m ∧
  (0 < m → l.globalCount ≤ m)

/-! ## Go error chains and the UserError taxonomy (package errors)

A Go error reaching the boundary layer is either a plain `errors.New`
value, a `fmt.Errorf("...: %w", err)` wrapper, a `*UserError` (the
repository's classification type, carrying a user message and a
retryability flag and wrapping a cause), or one of the `context` package's
sentinel errors. -/
inductive GoErr where
  | base (msg : String)
  | wrap (note : String) (inner : GoErr)
  | user (userMsg : String) (retryable : Bool) (inner : GoErr)
  | ctxCanceled
  | ctxDeadlineExceeded
deriving DecidableEq, Repr

/-- Go `errors.As(err, &userErr)`: walk the `Unwrap` chain looking for a
`*UserError`; report its user message and retryability when found. -/
def errorsAsUserError : GoErr → Option (String × Bool)
  | .base _ => none
  | .wrap _ inner => errorsAsUserError inner
  | .user msg r _ => some (msg, r)
  | .ctxCanceled => none
  | .ctxDeadlineExceeded => none

def defaultUserMessage : String :=
  "An unexpected error occurred. Please try again later."

/-- Go `GetUserMessage` (package errors): the message of the `UserError` when the
chain holds one, the generic default otherwise. -/
def GetUserMessage (e : GoErr) : String :=
  match errorsAsUserError e with
  | some (msg, _) => msg
  | none => defaultUserMessage

/-- Go `IsRetryable` (package errors). -/
def IsRetryable (e : GoErr) : Bool :=
  match errorsAsUserError e with
  | some (_, r) => r
  | none => false

/-- The predefined taxonomy values of package errors. -/
def ErrComfyUIUnavailable : GoErr :=
  .user "The image generation service is currently unavailable. Please try again later."
    true (.base "comfyui server unavailable")

def ErrGenerationTimeout : GoErr :=
  .user "Image generation took too long and was cancelled. Try a simpler prompt."
    true (.base "generation timeout")

def ErrInvalidWorkflow : GoErr :=
  .user "There is a problem with the image generation configuration. Please contact the administrator."
    false (.base "invalid workflow")

def ErrPromptRejected : GoErr :=
  .user "The prompt could not be processed. Please try rewording your request."
    true (.base "prompt rejected by comfyui")

/-- An error chain containing no `*UserError` node: `errors.As` cannot
find a classification in it. -/
def noUserNode : GoErr → Bool
  | .base _ => true
  | .wrap _ inner => noUserNode inner
  | .user _ _ _ => false
  | .ctxCanceled => true
  | .ctxDeadlineExceeded => true

/-! ### The error values built by `GenerateImage` and its stages
(internal/comfyui/client.go lines 45–89): each failing stage returns
`fmt.Errorf("<stage>: %w", err)` around the technical cause, and the
lookup misses return plain `fmt.Errorf` values.  None of them constructs a
`*UserError`. -/
def genErrPrepare (e : GoErr) : GoErr := .wrap "prepare workflow" e

def genErrQueue (e : GoErr) : GoErr := .wrap "queue prompt" e

def genErrWait (e : GoErr) : GoErr := .wrap "wait for completion" e

def genErrHistory (e : GoErr) : GoErr := .wrap "get history" e

def genErrNotFound : GoErr := .base "prompt not found in history"

def genErrNoOutput : GoErr := .base "no output image found"

/-! ## ExecutionMonitor (part_004, `WaitForCompletion`)

The awaiting task's `select` loop (lines 86–136) reacts to four sources:
context cancellation, the ping ticker, a read error from the reader
goroutine, and a decoded `WSMessage`.  We embed one loop iteration as a
step function on the arriving signal, and a whole call as the first
terminating step over the sequence of signals the select statement
processed.  `conn.Close()` is deferred (line 51), so every exit closes the
connection; only the cancellation branch additionally writes a close
frame (lines 90–91). -/
structure ExecutingData where
  node : Option String
  promptId : String
deriving DecidableEq, Repr

structure ProgressData where
  value : Int
  maxValue : Int
  promptId : String
deriving DecidableEq, Repr

/-- A decoded WebSocket message, after `json.Unmarshal` into `WSMessage`
and the per-type payload: `other` stands for unknown `type` fields and
payloads that fail to unmarshal (both are skipped by the loop). -/
inductive WSMsg where
  | executing (data : ExecutingData)
  | progress (data : ProgressData)
  | executionError (payload : String)
  | other
deriving DecidableEq, Repr

/-- One firing of the `select` statement. -/
inductive SelectSignal where
  | ctxDone (ctxErr : GoErr)
  | pingTick (writeErr : Option GoErr)
  | readErr (e : GoErr) (isNormalClose : Bool)
  | message (msg : WSMsg)
deriving DecidableEq, Repr

/-- How one `WaitForCompletion` call ended: the returned error (`none` for
the nil return on completion), whether a close frame was written before
returning, and whether the connection was closed (always, by the defer). -/
structure MonitorExit where
  retErr : Option GoErr
  sentCloseFrame : Bool
  closesConn : Bool
deriving DecidableEq, Repr

inductive StepOut where
  | stay
  | halt (e : MonitorExit)
deriving DecidableEq, Repr

/-- One iteration of the select loop of `WaitForCompletion` for the
awaited prompt id (lines 86–136). -/
def stepSelect (awaited : String) : SelectSignal → StepOut
  | .ctxDone ce => .halt ⟨some ce, true, true⟩
  | .pingTick none => .stay
  | .pingTick (some e) => .halt ⟨some (.wrap "ping failed" e), false, true⟩
  | .readErr e isNormalClose =>
      if isNormalClose then
        .halt ⟨some (.base "websocket closed unexpectedly"), false, true⟩
      else
        .halt ⟨some (.wrap "websocket read" e), false, true⟩
  | .message (.executing d) =>
      if d.promptId = awaited ∧ d.node = none then
        .halt ⟨none, false, true⟩
      else
        .stay
  | .message (.progress _) => .stay
  | .message (.executionError payload) =>
      .halt ⟨some (.base ("comfyui execution error: " ++ payload)), false, true⟩
  | .message .other => .stay

/-- A whole `WaitForCompletion` call over the sequence of signals the
select loop processed: the first terminating iteration decides the result;
`none` means the call is still streaming. -/
def runMonitor (awaited : String) : List SelectSignal → Option MonitorExit
  | [] => none
  | sig :: rest =>
    match stepSelect awaited sig with
    | .stay => runMonitor awaited rest
    | .halt e => some e

/-- The completion condition as the claim words it: "an absent/empty
node". -/
def claimNodeAbsentOrEmpty (node : Option String) : Bool :=
  node = none ∨ node = some ""

/-- The monitor's error on an execution_error frame (line 133). -/
def monitorExecutionFailedErr (payload : String) : GoErr :=
  .base ("comfyui execution error: " ++ payload)

/-- The monitor's error when the read loop fails, in particular when the
30-second read deadline expires with no frame (lines 99–103). -/
def monitorReadErr (e : GoErr) : GoErr := .wrap "websocket read" e

/-! ### Read-deadline discipline (lines 54–58, 94–97, 105–107)

`WaitForCompletion` sets a 30-second read deadline at connection time and
resets it to `now + 30s` on every received frame: the pong handler
(line 56) and the message branch (line 107).  Outbound pings go out every
10 seconds.  We model the discipline over the (sorted) arrival times of
deadline-resetting frames: `runDeadline` folds them against the current
deadline, failing if a frame arrives only after the deadline already
expired. -/
def idleWindowSeconds : Nat := 30

def pingIntervalSeconds : Nat := 10

def runDeadline : Nat → List Nat → Option Nat
  | d, [] => some d
  | d, t :: ts => if t ≤ d then runDeadline (t + idleWindowSeconds) ts else none

/-- Whether the read deadline has expired by time `now`, given connection
time `start` and the frame arrival times. -/
def monitorTimesOut (start : Nat) (frameTimes : List Nat) (now : Nat) : Bool :=
  match runDeadline (start + idleWindowSeconds) frameTimes with
  | none => true
  | some d => decide (d < now)

/-! ## QueuePrompt (internal/comfyui/client.go lines 92–134)

After the HTTP roundtrip, the decision logic: a non-200 status is an
error carrying the status and raw body; an unmarshal failure is a wrapped
error; a response with a non-empty `error` field is a "comfyui error";
otherwise the backend's `prompt_id` is returned.  `node_errors` is
decoded into the struct but the constructed error carries only the
`error` string. -/
structure NodeError where
  typ : String
  message : String
  details : String
deriving DecidableEq, Repr

structure PromptResponse where
  promptId : String
  number : Int
  nodeErrors : List (String × List NodeError)
  errorField : String
deriving DecidableEq, Repr

def queuePromptDecode (statusCode : Nat) (respBody : String)
    (decoded : Except GoErr PromptResponse) : Except GoErr String :=
  if statusCode ≠ 200 then
    .error (.base ("server returned " ++ toString statusCode ++ ": " ++ respBody))
  else
    match decoded with
    | .error ue => .error (.wrap "unmarshal response" ue)
    | .ok pr =>
      if pr.errorField ≠ "" then
        .error (.base ("comfyui error: " ++ pr.errorField))
      else
        .ok pr.promptId

/-! ## Output resolution in GenerateImage (client.go lines 74–88)

After completion, the history entry's `Outputs` is a Go
`map[string]NodeOutput`; the loop scans it in map-iteration order and
downloads the first image of the first node that has any.  Map iteration
order in Go is unspecified (deliberately randomized), so we model the
scanned sequence as whatever order the runtime produced. -/
structure ImageOutput where
  filename : String
  subfolder : String
  typ : String
deriving DecidableEq, Repr

structure NodeOutput where
  images : List ImageOutput
deriving DecidableEq, Repr

/-- The selection loop: first node (in the scanned order) with a
non-empty image list yields its first image; otherwise the
`no output image found` error. -/
def findOutputImage : List (String × NodeOutput) → Except GoErr ImageOutput
  | [] => .error genErrNoOutput
  | (_, out) :: rest =>
    match out.images with
    | [] => findOutputImage rest
    | img :: _ => .ok img

/-! ## JSON strings: Go escaping and decoding

`sanitizeForJSON` (part_004 lines 218–233) runs `json.Marshal` on the
prompt string and strips the surrounding quotes, so its output is the
JSON-string-encoded body of the prompt.  Go's encoder escapes `"`, `\`,
the control characters (`\n`, `\r`, `\t` by name, the rest as `\u00XX`),
and — HTML-escaping being on by default — `<`, `>`, `&` and U+2028/U+2029
as `\uXXXX`.  The decoder below models the JSON string-literal grammar
that `json.Unmarshal` accepts (control characters are rejected,
`\u` takes four hex digits). -/
def hexDigitChar (n : Nat) : Char :=
  if n < 10 then Char.ofNat (48 + n) else Char.ofNat (87 + n)

def hexVal (c : Char) : Option Nat :=
  if 48 ≤ c.toNat ∧ c.toNat ≤ 57 then some (c.toNat - 48)
  else if 97 ≤ c.toNat ∧ c.toNat ≤ 102 then some (c.toNat - 87)
  else if 65 ≤ c.toNat ∧ c.toNat ≤ 70 then some (c.toNat - 55)
  else none

/-- Go `encoding/json` escaping of one character inside a string
(the `escapeHTML=true` default used by `json.Marshal`). -/
def escChar (c : Char) : List Char :=
  if c = '"' then ['\\', '"']
  else if c = '\\' then ['\\', '\\']
  else if c.toNat < 32 then
    (if c = Char.ofNat 10 then ['\\', 'n']
     else if c = Char.ofNat 13 then ['\\', 'r']
     else if c = Char.ofNat 9 then ['\\', 't']
     else ['\\', 'u', '0', '0', hexDigitChar (c.toNat / 16), hexDigitChar (c.toNat % 16)])
  else if c = '<' then ['\\', 'u', '0', '0', '3', 'c']
  else if c = '>' then ['\\', 'u', '0', '0', '3', 'e']
  else if c = '&' then ['\\', 'u', '0', '0', '2', '6']
  else if c.toNat = 8232 then ['\\', 'u', '2', '0', '2', '8']
  else if c.toNat = 8233 then ['\\', 'u', '2', '0', '2', '9']
  else [c]

def escapeChars : List Char → List Char
  | [] => []
  | c :: cs => escChar c ++ escapeChars cs

/-- Go `sanitizeForJSON`: `json.Marshal` of the string minus the surrounding
quotes. -/
def sanitizeForJSON (s : List Char) : List Char := escapeChars s

def consFst (c : Char) : Option (List Char × List Char) → Option (List Char × List Char)
  | none => none
  | some (s, r) => some (c :: s, r)

/-- JSON string-literal body decoder: consumes characters up to the
closing quote, resolving escapes; fails on raw control characters,
unknown escapes and truncated input. -/
def parseStringBody : List Char → Option (List Char × List Char)
  | [] => none
  | c :: rest =>
    if c = '"' then some ([], rest)
    else if c = '\\' then
      match rest with
      | [] => none
      | e :: rest2 =>
        if e = '"' then consFst '"' (parseStringBody rest2)
        else if e = '\\' then consFst '\\' (parseStringBody rest2)
        else if e = '/' then consFst '/' (parseStringBody rest2)
        else if e = 'b' then consFst (Char.ofNat 8) (parseStringBody rest2)
        else if e = 'f' then consFst (Char.ofNat 12) (parseStringBody rest2)
        else if e = 'n' then consFst (Char.ofNat 10) (parseStringBody rest2)
        else if e = 'r' then consFst (Char.ofNat 13) (parseStringBody rest2)
        else if e = 't' then consFst (Char.ofNat 9) (parseStringBody rest2)
        else if e = 'u' then
          match rest2 with
          | h1 :: h2 :: h3 :: h4 :: rest3 =>
            match hexVal h1, hexVal h2, hexVal h3, hexVal h4 with
            | some a, some b, some c3, some d =>
              consFst (Char.ofNat (4096 * a + 256 * b + 16 * c3 + d)) (parseStringBody rest3)
            | _, _, _, _ => none
          | _ => none
        else none
    else if c.toNat < 32 then none
    else consFst c (parseStringBody rest)
termination_by structural l => l

/-! ## `strings.ReplaceAll`

Go's `strings.ReplaceAll(s, old, new)` scans `s` left to right; at each
position it either consumes a non-overlapping occurrence of `old`
(emitting `new` and continuing after the occurrence, without rescanning
the replacement) or emits one character.  `PrepareWorkflow` calls it with
the constant placeholder `{{PROMPT}}` as `old`. -/
def replaceAllGo : List Char → List Char → List Char → List Char
  | [], _, _ => []
  | c :: rest, old, new =>
    if old.isPrefixOf (c :: rest) ∧ old ≠ [] then
      new ++ replaceAllGo (rest.drop (old.length - 1)) old new
    else c :: replaceAllGo rest old new
termination_by s _ _ => s.length
decreasing_by
  · have := List.length_drop (old.length - 1) rest
    simp only [List.length_cons]
    omega
  · simp

def PromptPlaceholder : List Char :=
  [Char.ofNat 123, Char.ofNat 123, 'P', 'R', 'O', 'M', 'P', 'T',
   Char.ofNat 125, Char.ofNat 125]

/-! ## Template shapes: segments with placeholder holes

A loaded workflow template in which the placeholder occurs inside JSON
string literals is, textually, an alternation of literal chunks and
placeholder occurrences.  `render segs x` is that text with each
placeholder position holding `x`; `holeStart` recognises the starting
indices of the placeholder positions. -/
inductive Seg where
  | lit (cs : List Char)
  | hole
deriving DecidableEq, Repr

def render : List Seg → List Char → List Char
  | [], _ => []
  | .lit cs :: segs, x => cs ++ render segs x
  | .hole :: segs, x => x ++ render segs x

def holeStart : List Seg → Nat → Bool
  | [], _ => false
  | .lit cs :: segs, i =>
    if cs.length ≤ i then holeStart segs (i - cs.length) else false
  | .hole :: segs, i =>
    if i = 0 then true
    else if PromptPlaceholder.length ≤ i then
      holeStart segs (i - PromptPlaceholder.length)
    else false

/-- The placeholder occurs in the rendered template only at the designated
hole positions (this is what "the placeholder occurs inside a JSON string
literal" amounts to textually: no occurrence begins inside or across the
literal chunks). -/
def NoStraddle (segs : List Seg) : Prop :=
  ∀ i, PromptPlaceholder.isPrefixOf ((render segs PromptPlaceholder).drop i) = true →
    holeStart segs i = true

/-! ## JSON documents and `encoding/json`

A JSON value as `json.Unmarshal` produces it, with object fields kept in
textual order (Go's `map[string]any` forgets the order, but nothing the
claims need depends on it) and numbers restricted to integers (the
workflow fields the claims touch are strings; numeric fields only have to
survive the parse).  `serialize` is the canonical whitespace-free
rendering; `parseVal` is an executable recursive-descent parser for the
JSON grammar standing for `json.Unmarshal`, with fuel bounding the
recursion depth. -/
inductive Json where
  | null
  | bool (b : Bool)
  | num (n : Int)
  | str (s : List Char)
  | arr (xs : List Json)
  | obj (fs : List (List Char × Json))

def isWs (c : Char) : Bool :=
  decide (c = ' ' ∨ c = Char.ofNat 9 ∨ c = Char.ofNat 10 ∨ c = Char.ofNat 13)

def skipWs : List Char → List Char
  | [] => []
  | c :: rest => if isWs c then skipWs rest else c :: rest

def isDigitCh (c : Char) : Bool := decide (48 ≤ c.toNat ∧ c.toNat ≤ 57)

def natToDigits (n : Nat) : List Char :=
  if n < 10 then [Char.ofNat (48 + n)]
  else natToDigits (n / 10) ++ [Char.ofNat (48 + n % 10)]
termination_by n
decreasing_by exact Nat.div_lt_self (by omega) (by omega)

def intToChars (n : Int) : List Char :=
  if n < 0 then '-' :: natToDigits n.natAbs else natToDigits n.natAbs

def parseNat : List Char → Nat → Nat × List Char
  | [], acc => (acc, [])
  | c :: rest, acc =>
    if isDigitCh c then parseNat rest (acc * 10 + (c.toNat - 48))
    else (acc, c :: rest)

def nullChars : List Char := ['n', 'u', 'l', 'l']

def trueChars : List Char := ['t', 'r', 'u', 'e']

def falseChars : List Char := ['f', 'a', 'l', 's', 'e']

mutual

def serialize : Json → List Char
  | .null => nullChars
  | .bool true => trueChars
  | .bool false => falseChars
  | .num n => intToChars n
  | .str s => '"' :: (escapeChars s ++ ['"'])
  | .arr xs => '[' :: (serializeItems xs ++ [']'])
  | .obj fs => Char.ofNat 123 :: (serializeFields fs ++ [Char.ofNat 125])

def serializeItems : List Json → List Char
  | [] => []
  | [x] => serialize x
  | x :: xs => serialize x ++ ',' :: serializeItems xs

def serializeFields : List (List Char × Json) → List Char
  | [] => []
  | [(k, v)] => '"' :: (escapeChars k ++ '"' :: ':' :: serialize v)
  | (k, v) :: fs =>
    ('"' :: (escapeChars k ++ '"' :: ':' :: serialize v)) ++ ',' :: serializeFields fs

end

mutual

def jsize : Json → Nat
  | .null => 1
  | .bool _ => 1
  | .num _ => 1
  | .str _ => 1
  | .arr xs => 1 + itemsSize xs
  | .obj fs => 1 + fieldsSize fs

def itemsSize : List Json → Nat
  | [] => 0
  | x :: xs => 1 + jsize x + itemsSize xs

def fieldsSize : List (List Char × Json) → Nat
  | [] => 0
  | (_, v) :: fs => 1 + jsize v + fieldsSize fs

end

mutual

def parseVal : Nat → List Char → Option (Json × List Char)
  | 0, _ => none
  | fuel + 1, s =>
    match skipWs s with
    | [] => none
    | c :: r =>
      if c = 'n' then
        match r with
        | 'u' :: 'l' :: 'l' :: r2 => some (.null, r2)
        | _ => none
      else if c = 't' then
        match r with
        | 'r' :: 'u' :: 'e' :: r2 => some (.bool true, r2)
        | _ => none
      else if c = 'f' then
        match r with
        | 'a' :: 'l' :: 's' :: 'e' :: r2 => some (.bool false, r2)
        | _ => none
      else if c = '"' then
        match parseStringBody r with
        | some (cs, r2) => some (.str cs, r2)
        | none => none
      else if c = '[' then
        match skipWs r with
        | [] => none
        | c2 :: r2 =>
          if c2 = ']' then some (.arr [], r2)
          else
            match parseItems fuel (c2 :: r2) with
            | some (xs, r3) => some (.arr xs, r3)
            | none => none
      else if c = Char.ofNat 123 then
        match skipWs r with
        | [] => none
        | c2 :: r2 =>
          if c2 = Char.ofNat 125 then some (.obj [], r2)
          else
            match parseFields fuel (c2 :: r2) with
            | some (fs, r3) => some (.obj fs, r3)
            | none => none
      else if c = '-' then
        match r with
        | [] => none
        | c2 :: r2 =>
          if isDigitCh c2 then
            some (.num (-((parseNat (c2 :: r2) 0).1 : Int)), (parseNat (c2 :: r2) 0).2)
          else none
      else if isDigitCh c then
        some (.num ((parseNat (c :: r) 0).1 : Int), (parseNat (c :: r) 0).2)
      else none

def parseItems : Nat → List Char → Option (List Json × List Char)
  | 0, _ => none
  | fuel + 1, s =>
    match parseVal fuel s with
    | none => none
    | some (v, r) =>
      match skipWs r with
      | [] => none
      | c :: r2 =>
        if c = ',' then
          match parseItems fuel r2 with
          | some (vs, r3) => some (v :: vs, r3)
          | none => none
        else if c = ']' then some ([v], r2)
        else none

def parseFields : Nat → List Char → Option (List (List Char × Json) × List Char)
  | 0, _ => none
  | fuel + 1, s =>
    match skipWs s with
    | [] => none
    | c :: r =>
      if c = '"' then
        match parseStringBody r with
        | none => none
        | some (key, r2) =>
          match skipWs r2 with
          | [] => none
          | c2 :: r3 =>
            if c2 = ':' then
              match parseVal fuel r3 with
              | none => none
              | some (v, r4) =>
                match skipWs r4 with
                | [] => none
                | c3 :: r5 =>
                  if c3 = ',' then
                    match parseFields fuel r5 with
                    | some (ps, r6) => some ((key, v) :: ps, r6)
                    | none => none
                  else if c3 = Char.ofNat 125 then some ([(key, v)], r5)
                  else none
            else none
      else none

end

/-- Whole-input parse standing for `json.Unmarshal`: one value followed by
at most whitespace. -/
def parseJsonTop (s : List Char) : Option Json :=
  match parseVal (s.length + 1) s with
  | some (v, rest) => if skipWs rest = [] then some v else none
  | none => none

/-- Go `json.Unmarshal(data, &m)` with `m : map[string]any` additionally
requires the top-level value to be an object. -/
def parseJsonObj (s : List Char) : Option (List (List Char × Json)) :=
  match parseJsonTop s with
  | some (.obj fs) => some fs
  | _ => none

/-! ### Round trip: parsing a serialized document -/
def digitHeadFree : List Char → Bool
  | [] => true
  | c :: _ => !isDigitCh c

def startOk (c : Char) : Bool :=
  isDigitCh c ||
    decide (c = 'n' ∨ c = 't' ∨ c = 'f' ∨ c = '"' ∨ c = '[' ∨
      c = Char.ofNat 123 ∨ c = '-')

/-! ## Workflow templates with placeholder holes

A template in which `{{PROMPT}}` occurs inside JSON string literals, as an
abstract syntax tree: `hole` is a string field whose entire content is the
placeholder.  `fill t p` is the document the claim expects after
substitution: each hole becomes the literal prompt `p`.  `serializeSegs`
renders the template's text as literal chunks and holes, so that
`render (serializeSegs t) PromptPlaceholder` is the template's bytes on
disk and `render (serializeSegs t) (escapeChars p)` is the text after
`strings.ReplaceAll` with the escaped prompt. -/
inductive JTmpl where
  | null
  | bool (b : Bool)
  | num (n : Int)
  | str (s : List Char)
  | hole
  | arr (xs : List JTmpl)
  | obj (fs : List (List Char × JTmpl))

mutual

def fill : JTmpl → List Char → Json
  | .null, _ => .null
  | .bool b, _ => .bool b
  | .num n, _ => .num n
  | .str s, _ => .str s
  | .hole, p => .str p
  | .arr xs, p => .arr (fillList xs p)
  | .obj fs, p => .obj (fillFields fs p)

def fillList : List JTmpl → List Char → List Json
  | [], _ => []
  | x :: xs, p => fill x p :: fillList xs p

def fillFields : List (List Char × JTmpl) → List Char → List (List Char × Json)
  | [], _ => []
  | (k, v) :: fs, p => (k, fill v p) :: fillFields fs p

end

mutual

def serializeSegs : JTmpl → List Seg
  | .null => [.lit nullChars]
  | .bool true => [.lit trueChars]
  | .bool false => [.lit falseChars]
  | .num n => [.lit (intToChars n)]
  | .str s => [.lit ('"' :: (escapeChars s ++ ['"']))]
  | .hole => [.lit ['"'], .hole, .lit ['"']]
  | .arr xs => .lit ['['] :: (segsItems xs ++ [.lit [']']])
  | .obj fs => .lit [Char.ofNat 123] :: (segsFields fs ++ [.lit [Char.ofNat 125]])

def segsItems : List JTmpl → List Seg
  | [] => []
  | [x] => serializeSegs x
  | x :: xs => serializeSegs x ++ .lit [','] :: segsItems xs

def segsFields : List (List Char × JTmpl) → List Seg
  | [] => []
  | [(k, v)] => .lit ('"' :: (escapeChars k ++ '"' :: [':'])) :: serializeSegs v
  | (k, v) :: fs =>
    (.lit ('"' :: (escapeChars k ++ '"' :: [':'])) :: serializeSegs v) ++
      .lit [','] :: segsFields fs

end

/-- Go `PrepareWorkflow` (part_004 lines 196–215): escape the user prompt for
JSON embedding (`sanitizeForJSON`), textually replace every occurrence of
the placeholder, then re-parse the result (into `map[string]any`, so the
top level must be an object; a parse failure is the
"prompt created invalid JSON" error, modelled as `none`). -/
def PrepareWorkflow (template userPrompt : List Char) :
    Option (List (List Char × Json)) :=
  parseJsonObj (replaceAllGo template PromptPlaceholder (sanitizeForJSON userPrompt))

/-! ## WorkflowManager.Load and Reload (part_004 lines 158–193, 236–238)

`Load` reads the template file, validates that the bytes parse as a JSON
object, checks that the raw bytes contain the placeholder, and only after
all three checks replaces the in-memory template under the lock.
`Reload` just calls `Load`.  The three failure modes return distinct
configuration errors; on every failure the previously loaded template
bytes are untouched. -/
inductive LoadErr where
  | readError (cause : GoErr)
  | invalidJSON
  | missingPlaceholder
deriving DecidableEq, Repr

/-- Go `strings.Contains`. -/
def containsSeq : List Char → List Char → Bool
  | [], pat => pat.isEmpty
  | c :: rest, pat => pat.isPrefixOf (c :: rest) || containsSeq rest pat

def workflowLoad (current : List Char) (fileData : Except GoErr (List Char)) :
    List Char × Option LoadErr :=
  match fileData with
  | .error e => (current, some (.readError e))
  | .ok data =>
    match parseJsonObj data with
    | none => (current, some .invalidJSON)
    | some _ =>
      if containsSeq data PromptPlaceholder then (data, none)
      else (current, some .missingPlaceholder)

/-- Go `Reload` delegates to `Load`. -/
def workflowReload (current : List Char) (fileData : Except GoErr (List Char)) :
    List Char × Option LoadErr :=
  workflowLoad current fileData

theorem limiterInv_new (m : Int) : LimiterInv m (NewUserLimiter m) := by
  refine ⟨rfl, List.nodup_nil, rfl, ?_⟩
  intro h
  simpa [NewUserLimiter] using le_of_lt h

theorem limiterInv_applyOp {m : Int} {l : UserLimiter} (h : LimiterInv m l)
    (op : LimiterOp) : LimiterInv m (applyOp l op) := by
  obtain ⟨hcount, hnodup, hmax, hcap⟩ := h
  cases op with
  | tryAcquire userID =>
    unfold applyOp UserLimiter.tryAcquire
    by_cases hmem : userID ∈ l.activeUsers
    · simp only [hmem, if_true]
      exact ⟨hcount, hnodup, hmax, hcap⟩
    · by_cases hfull : l.maxGlobal > 0 ∧ l.globalCount ≥ l.maxGlobal
      · simp only [hmem, if_false, hfull, if_true]
        exact ⟨hcount, hnodup, hmax, hcap⟩
      · simp only [hmem, if_false, hfull, if_true]
        refine ⟨?_, ?_, hmax, ?_⟩
        · simp only [List.length_cons]
          push_cast
          omega
        · exact List.nodup_cons.mpr ⟨hmem, hnodup⟩
        · intro hm
          rw [hmax] at hfull
          simp only []
          omega
  | release userID =>
    unfold applyOp UserLimiter.release
    by_cases hmem : userID ∈ l.activeUsers
    · simp only [hmem, if_true]
      have hlen : 0 < l.activeUsers.length := List.length_pos_of_mem hmem
      have herase : (l.activeUsers.erase userID).length = l.activeUsers.length - 1 :=
        List.length_erase_of_mem hmem
      refine ⟨?_, hnodup.erase userID, hmax, ?_⟩
      · simp only [herase]
        push_cast [Nat.cast_sub hlen]
        omega
      · intro hm
        have := hcap hm
        simp only []
        omega
    · simp only [hmem, if_false]
      exact ⟨hcount, hnodup, hmax, hcap⟩

theorem limiterInv_runOps {m : Int} {l : UserLimiter} (h : LimiterInv m l) :
    ∀ ops : List LimiterOp, LimiterInv m (runOps l ops)
  | [] => h
  | op :: ops => limiterInv_runOps (limiterInv_applyOp h op) ops

/-- C1: for any sequence of `TryAcquire`/`Release` calls from a fresh
limiter with global cap `m`: a `TryAcquire` for an actor that already holds
a slot returns `false`; when `m > 0`, a successful `TryAcquire` leaves
`ActiveCount()` at most `m`; and `ActiveCount()` is never negative, even
after releases of never-acquired actors. -/
theorem limiter_gate_invariants (m : Int) (ops : List LimiterOp) (uid : Int) :
    (((runOps (NewUserLimiter m) ops).isUserActive uid) = true →
      ((runOps (NewUserLimiter m) ops).tryAcquire uid).1 = false) ∧
    (0 < m → ((runOps (NewUserLimiter m) ops).tryAcquire uid).1 = true →
      ((runOps (NewUserLimiter m) ops).tryAcquire uid).2.activeCount ≤ m) ∧
    0 ≤ (runOps (NewUserLimiter m) ops).activeCount := by
  obtain ⟨hcount, hnodup, hmax, hcap⟩ :=
    limiterInv_runOps (limiterInv_new m) ops
  set l := runOps (NewUserLimiter m) ops with hl
  refine ⟨?_, ?_, ?_⟩
  · intro hactive
    have hmem : uid ∈ l.activeUsers := by
      simpa [UserLimiter.isUserActive] using hactive
    simp [UserLimiter.tryAcquire, hmem]
  · intro hm hsucc
    by_cases hmem : uid ∈ l.activeUsers
    · simp [UserLimiter.tryAcquire, hmem] at hsucc
    · by_cases hfull : l.maxGlobal > 0 ∧ l.globalCount ≥ l.maxGlobal
      · simp [UserLimiter.tryAcquire, hmem, hfull] at hsucc
      · rw [hmax] at hfull
        simp [UserLimiter.tryAcquire, hmem, hfull, UserLimiter.activeCount, hmax]
        omega
  · rw [UserLimiter.activeCount, hcount]
    positivity

/-- Witness for C1 at concrete inputs. -/
theorem limiter_gate_invariants_witness :
    ((runOps (NewUserLimiter 1) [.tryAcquire 5]).tryAcquire 5).1 = false ∧
    ((runOps (NewUserLimiter 1) []).tryAcquire 7).2.activeCount ≤ 1 ∧
    0 ≤ (runOps (NewUserLimiter 2) [.release 9]).activeCount :=
  ⟨(limiter_gate_invariants 1 [.tryAcquire 5] 5).1 (by decide),
   (limiter_gate_invariants 1 [] 7).2.1 (by decide) (by decide),
   (limiter_gate_invariants 2 [.release 9] 0).2.2⟩

/-- C10: after any operation sequence from a fresh limiter, the counter
`globalCount` equals the number of entries of the active set (which stays
duplicate-free), and consequently `ActiveCount()` equals the number of
actors for which `IsUserActive` returns `true`. -/
theorem limiter_count_matches_set (m : Int) (ops : List LimiterOp) :
    (runOps (NewUserLimiter m) ops).globalCount =
      ((runOps (NewUserLimiter m) ops).activeUsers.length : Int) ∧
    (runOps (NewUserLimiter m) ops).activeUsers.Nodup ∧
    (runOps (NewUserLimiter m) ops).activeCount =
      (((runOps (NewUserLimiter m) ops).activeUsers.filter
        (fun u => (runOps (NewUserLimiter m) ops).isUserActive u)).length : Int) := by
  obtain ⟨hcount, hnodup, -, -⟩ := limiterInv_runOps (limiterInv_new m) ops
  set l := runOps (NewUserLimiter m) ops with hl
  have hfilter : l.activeUsers.filter (fun u => l.isUserActive u) = l.activeUsers := by
    apply List.filter_eq_self.mpr
    intro u hu
    simpa [UserLimiter.isUserActive] using hu
  exact ⟨hcount, hnodup, by rw [UserLimiter.activeCount, hfilter, hcount]⟩

theorem errorsAsUserError_eq_none_of_noUserNode :
    ∀ e : GoErr, noUserNode e = true → errorsAsUserError e = none
  | .base _, _ => rfl
  | .wrap _ inner, h =>
      errorsAsUserError_eq_none_of_noUserNode inner (by simpa [noUserNode] using h)
  | .user _ _ _, h => by simp [noUserNode] at h
  | .ctxCanceled, _ => rfl
  | .ctxDeadlineExceeded, _ => rfl

/-- C5 counterexample: a raw transport failure inside `QueuePrompt`
(`fmt.Errorf("send request: %w", err)`) reaches the boundary as
`queue prompt: send request: connection refused` — `errors.As` finds no
`UserError` in it, so it is unclassified and `GetUserMessage` falls back
to the generic default, refuting the claim that every pipeline error is a
classified taxonomy error. -/
theorem generation_errors_unclassified_cex :
    errorsAsUserError (genErrQueue (.wrap "send request" (.base "connection refused"))) = none ∧
    GetUserMessage (genErrQueue (.wrap "send request" (.base "connection refused"))) =
      defaultUserMessage ∧
    ∀ taxonomyMsg retry cause,
      genErrQueue (.wrap "send request" (.base "connection refused")) ≠
        .user taxonomyMsg retry cause :=
  ⟨rfl, rfl, fun _ _ _ h => GoErr.noConfusion h⟩

/-- C5 amended: the errors `GenerateImage` and its stages return are plain
wrapped chains; whenever the underlying cause carries no `UserError`
(which is the case for every raw transport error), the boundary layer's
`GetUserMessage` cannot classify them and yields the generic default
message. -/
theorem generation_errors_reach_boundary_unclassified (cause : GoErr)
    (h : noUserNode cause = true) :
    GetUserMessage (genErrPrepare cause) = defaultUserMessage ∧
    GetUserMessage (genErrQueue cause) = defaultUserMessage ∧
    GetUserMessage (genErrWait cause) = defaultUserMessage ∧
    GetUserMessage (genErrHistory cause) = defaultUserMessage ∧
    GetUserMessage genErrNotFound = defaultUserMessage ∧
    GetUserMessage genErrNoOutput = defaultUserMessage := by
  have hnone := errorsAsUserError_eq_none_of_noUserNode cause h
  refine ⟨?_, ?_, ?_, ?_, rfl, rfl⟩ <;>
    simp [GetUserMessage, genErrPrepare, genErrQueue, genErrWait, genErrHistory,
      errorsAsUserError, hnone]

/-- Witness for the amended C5 theorem at a concrete transport error. -/
theorem generation_errors_reach_boundary_unclassified_witness :
    GetUserMessage (genErrQueue (.wrap "send request" (.base "dial tcp: connection refused"))) =
      defaultUserMessage :=
  (generation_errors_reach_boundary_unclassified
    (.wrap "send request" (.base "dial tcp: connection refused")) rfl).2.1

/-- C3 counterexample: an `executing` event for the awaited prompt whose
`node` field is present but empty satisfies the claim's completion
condition ("absent/empty node"), yet the code only completes on
`data.Node == nil`, so the call keeps streaming. -/
theorem monitor_correlation_cex :
    claimNodeAbsentOrEmpty (some "") = true ∧
    (ExecutingData.mk (some "") "42").promptId = "42" ∧
    stepSelect "42" (.message (.executing ⟨some "", "42"⟩)) = .stay ∧
    runMonitor "42" [.message (.executing ⟨some "", "42"⟩)] = none := by
  refine ⟨by decide, rfl, ?_, ?_⟩ <;> simp [stepSelect, runMonitor]

/-- C3 amended: an `executing` event completes the call exactly when its
`prompt_id` equals the awaited handle and its `node` field is absent
(JSON null or missing); an event for another prompt id, or with a present
node — even an empty one — never terminates the call, and a whole stream
of such events leaves the call waiting. -/
theorem monitor_correlation (awaited : String) (d : ExecutingData) :
    (stepSelect awaited (.message (.executing d)) = .halt ⟨none, false, true⟩ ↔
      d.promptId = awaited ∧ d.node = none) ∧
    ((d.promptId ≠ awaited ∨ d.node ≠ none) →
      stepSelect awaited (.message (.executing d)) = .stay) ∧
    ∀ sigs : List SelectSignal,
      (∀ s ∈ sigs, ∃ d' : ExecutingData,
        s = .message (.executing d') ∧ (d'.promptId ≠ awaited ∨ d'.node ≠ none)) →
      runMonitor awaited sigs = none := by
  refine ⟨?_, ?_, ?_⟩
  · by_cases hcond : d.promptId = awaited ∧ d.node = none
    · simp [stepSelect, hcond]
    · have hstay : stepSelect awaited (.message (.executing d)) = .stay := by
        simp [stepSelect, hcond]
      rw [hstay]
      exact iff_of_false (by simp) hcond
  · intro hne
    have hcond : ¬(d.promptId = awaited ∧ d.node = none) := by tauto
    simp [stepSelect, hcond]
  · intro sigs
    induction sigs with
    | nil => intro _; rfl
    | cons s rest ih =>
      intro hall
      obtain ⟨d', hs, hd'⟩ := hall s (List.mem_cons_self s rest)
      have hcond : ¬(d'.promptId = awaited ∧ d'.node = none) := by tauto
      rw [hs]
      simp only [runMonitor, stepSelect, hcond, if_false]
      exact ih fun s' hs' => hall s' (List.mem_cons_of_mem s hs')

/-- Witness for C3 amended at concrete events. -/
theorem monitor_correlation_witness :
    stepSelect "42" (.message (.executing ⟨some "5", "42"⟩)) = .stay ∧
    runMonitor "42" [.message (.executing ⟨none, "other"⟩),
                     .message (.executing ⟨some "3", "42"⟩)] = none :=
  ⟨(monitor_correlation "42" ⟨some "5", "42"⟩).2.1 (by simp),
   (monitor_correlation "42" ⟨none, "other"⟩).2.2
     [.message (.executing ⟨none, "other"⟩), .message (.executing ⟨some "3", "42"⟩)]
     (by
        intro s hs
        simp only [List.mem_cons, List.mem_singleton] at hs
        rcases hs with h | h | h
        · exact ⟨⟨none, "other"⟩, by simp [h]⟩
        · exact ⟨⟨some "3", "42"⟩, by simp [h]⟩
        · cases h)⟩

/-- C7: when the caller's context is cancelled mid-stream, the select loop
takes the `ctx.Done()` branch: it writes a graceful close frame and
returns `ctx.Err()` — a `context` sentinel error, distinct as a value from
every execution-failure error and every read/timeout error the other
branches can return. -/
theorem monitor_cancellation (awaited : String) (ce : GoErr)
    (hce : ce = .ctxCanceled ∨ ce = .ctxDeadlineExceeded)
    (rest : List SelectSignal) :
    stepSelect awaited (.ctxDone ce) = .halt ⟨some ce, true, true⟩ ∧
    runMonitor awaited (.ctxDone ce :: rest) = some ⟨some ce, true, true⟩ ∧
    (∀ payload, ce ≠ monitorExecutionFailedErr payload) ∧
    (∀ e, ce ≠ monitorReadErr e) ∧
    ce ≠ .base "websocket closed unexpectedly" := by
  refine ⟨rfl, rfl, ?_, ?_, ?_⟩ <;>
    rcases hce with h | h <;> subst h <;>
    intros <;> simp [monitorExecutionFailedErr, monitorReadErr]

/-- Witness for C7 at the concrete `context.Canceled` error. -/
theorem monitor_cancellation_witness :
    stepSelect "42" (.ctxDone .ctxCanceled) = .halt ⟨some .ctxCanceled, true, true⟩ ∧
    runMonitor "42" [.ctxDone .ctxCanceled] = some ⟨some .ctxCanceled, true, true⟩ :=
  ⟨(monitor_cancellation "42" .ctxCanceled (Or.inl rfl) []).1,
   (monitor_cancellation "42" .ctxCanceled (Or.inl rfl) []).2.1⟩

theorem runDeadline_of_chain {start : Nat} {ts : List Nat}
    (h : List.Chain (fun a b => b ≤ a + idleWindowSeconds) start ts) :
    runDeadline (start + idleWindowSeconds) ts =
      some ((start :: ts).getLast (by simp) + idleWindowSeconds) := by
  induction ts generalizing start with
  | nil => simp [runDeadline]
  | cons t ts ih =>
    rcases h with _ | ⟨hle, hchain⟩
    rw [runDeadline, if_pos hle, ih hchain]
    rfl

/-- C6 counterexample: when the idle window elapses with no frames, the
call does return (the expired read deadline surfaces as a read error,
wrapped as `websocket read: ...`) — but that error is not a classified
`Timeout`-kind error: it contains no `UserError`, it is not the
repository's `ErrGenerationTimeout`, and `GetUserMessage` renders it with
the generic default text. -/
theorem monitor_timeout_unclassified_cex :
    monitorTimesOut 0 [] 31 = true ∧
    errorsAsUserError (monitorReadErr (.base "i/o timeout")) = none ∧
    monitorReadErr (.base "i/o timeout") ≠ ErrGenerationTimeout ∧
    GetUserMessage (monitorReadErr (.base "i/o timeout")) = defaultUserMessage := by
  refine ⟨by decide, rfl, ?_, rfl⟩
  intro h
  exact GoErr.noConfusion h

/-- C6 amended: if no deadline-resetting frame arrives within the
30-second idle window the read deadline expires (so the blocked read
fails and `WaitForCompletion` returns the wrapped read error, closing the
connection via the defer) — the returned error is the unclassified
`websocket read` wrap, not a distinct `Timeout` kind; and as long as
frames (in particular pong replies to the 10-second pings) keep arriving
within every idle window, the deadline keeps moving and no timeout ever
fires, for arbitrarily long executions. -/
theorem monitor_timeout_behavior (start now : Nat) (ts : List Nat) (e : GoErr)
    (he : noUserNode e = true) :
    (monitorTimesOut start [] now = true ↔ start + idleWindowSeconds < now) ∧
    (List.Chain (fun a b => b ≤ a + idleWindowSeconds) start ts →
      now ≤ (start :: ts).getLast (by simp) + idleWindowSeconds →
      monitorTimesOut start ts now = false) ∧
    stepSelect "x" (.readErr e false) = .halt ⟨some (monitorReadErr e), false, true⟩ ∧
    errorsAsUserError (monitorReadErr e) = none := by
  refine ⟨?_, ?_, ?_, ?_⟩
  · simp [monitorTimesOut, runDeadline]
  · intro hchain hnow
    rw [monitorTimesOut, runDeadline_of_chain hchain]
    simpa using hnow
  · simp [stepSelect, monitorReadErr]
  · exact errorsAsUserError_eq_none_of_noUserNode _ (by simpa [noUserNode, monitorReadErr])

/-- Witness for C6 amended: a 25-second heartbeat rhythm never times out
within the covered horizon; silence does. -/
theorem monitor_timeout_behavior_witness :
    monitorTimesOut 0 [] 31 = true ∧
    monitorTimesOut 0 [25, 50, 75] 100 = false :=
  ⟨(monitor_timeout_behavior 0 31 [] (.base "t") rfl).1.mpr (by decide),
   (monitor_timeout_behavior 0 100 [25, 50, 75] (.base "t") rfl).2.1
     (by norm_num [List.chain_cons, idleWindowSeconds]) (by decide)⟩

/-- C9 counterexample: two backend responses identical except for their
structured `node_errors` payload produce the very same rejection error —
the error the code builds carries only the `error` string, so the
per-node details are not carried. -/
theorem queue_prompt_drops_node_errors_cex :
    (PromptResponse.mk "" 0 [("5", [⟨"value_error", "bad input", "details"⟩])] "invalid prompt").nodeErrors ≠
      (PromptResponse.mk "" 0 [] "invalid prompt").nodeErrors ∧
    queuePromptDecode 200 ""
        (.ok ⟨"", 0, [("5", [⟨"value_error", "bad input", "details"⟩])], "invalid prompt"⟩) =
      queuePromptDecode 200 "" (.ok ⟨"", 0, [], "invalid prompt"⟩) ∧
    queuePromptDecode 200 ""
        (.ok ⟨"", 0, [("5", [⟨"value_error", "bad input", "details"⟩])], "invalid prompt"⟩) =
      .error (.base "comfyui error: invalid prompt") := by
  refine ⟨by decide, rfl, rfl⟩

/-- C9 amended: `QueuePrompt` returns an error on every non-200 status
(carrying status and raw body) and whenever the decoded response's
`error` field is non-empty (carrying only that string — the decoded
`node_errors` details are dropped); otherwise it returns the
backend-assigned `prompt_id`.  It performs a single submission with no
internal retry (the decode is a single-pass function of one response). -/
theorem queue_prompt_decode_spec (statusCode : Nat) (respBody : String)
    (decoded : Except GoErr PromptResponse) :
    (statusCode ≠ 200 →
      queuePromptDecode statusCode respBody decoded =
        .error (.base ("server returned " ++ toString statusCode ++ ": " ++ respBody))) ∧
    (statusCode = 200 → ∀ pr, decoded = .ok pr → pr.errorField ≠ "" →
      queuePromptDecode statusCode respBody decoded =
        .error (.base ("comfyui error: " ++ pr.errorField))) ∧
    (statusCode = 200 → ∀ pr, decoded = .ok pr → pr.errorField = "" →
      queuePromptDecode statusCode respBody decoded = .ok pr.promptId) := by
  refine ⟨?_, ?_, ?_⟩
  · intro hne
    simp [queuePromptDecode, hne]
  · intro h200 pr hd herr
    subst h200 hd
    simp [queuePromptDecode, herr]
  · intro h200 pr hd herr
    subst h200 hd
    simp [queuePromptDecode, herr]

/-- Witness for C9 amended across the three outcomes. -/
theorem queue_prompt_decode_spec_witness :
    queuePromptDecode 500 "busy" (.ok ⟨"", 0, [], ""⟩) =
      .error (.base "server returned 500: busy") ∧
    queuePromptDecode 200 "" (.ok ⟨"", 0, [], "oops"⟩) =
      .error (.base "comfyui error: oops") ∧
    queuePromptDecode 200 "" (.ok ⟨"abc", 7, [], ""⟩) = .ok "abc" :=
  ⟨(queue_prompt_decode_spec 500 "busy" (.ok ⟨"", 0, [], ""⟩)).1 (by decide),
   (queue_prompt_decode_spec 200 "" (.ok ⟨"", 0, [], "oops"⟩)).2.1 rfl _ rfl (by decide),
   (queue_prompt_decode_spec 200 "" (.ok ⟨"abc", 7, [], ""⟩)).2.2 rfl _ rfl rfl⟩

/-- C4 counterexample: the same ledger contents scanned in two orders —
both permutations of each other, as a Go map may produce either — select
different artifacts, so the code does not return the first artifact of
the *returned* (wire) order. -/
theorem output_selection_order_cex :
    List.Perm
      [("9", NodeOutput.mk [⟨"b.png", "", "output"⟩]),
       ("3", NodeOutput.mk [⟨"a.png", "", "output"⟩])]
      [("3", NodeOutput.mk [⟨"a.png", "", "output"⟩]),
       ("9", NodeOutput.mk [⟨"b.png", "", "output"⟩])] ∧
    findOutputImage
      [("3", NodeOutput.mk [⟨"a.png", "", "output"⟩]),
       ("9", NodeOutput.mk [⟨"b.png", "", "output"⟩])] = .ok ⟨"a.png", "", "output"⟩ ∧
    findOutputImage
      [("9", NodeOutput.mk [⟨"b.png", "", "output"⟩]),
       ("3", NodeOutput.mk [⟨"a.png", "", "output"⟩])] = .ok ⟨"b.png", "", "output"⟩ ∧
    (⟨"a.png", "", "output"⟩ : ImageOutput) ≠ ⟨"b.png", "", "output"⟩ := by
  refine ⟨List.Perm.swap _ _ _, rfl, rfl, by decide⟩

/-- C4 amended: the loop returns the first image of the first
image-bearing node in the order the map was scanned (which for a Go map
is unspecified, not necessarily the wire order); every success is the
head of some node's image list; and when no node has any images the call
fails with the `no output image found` error — never a zero-length
success. -/
theorem output_selection_spec (entries : List (String × NodeOutput)) :
    ((∀ p ∈ entries, p.2.images = []) →
      findOutputImage entries = .error genErrNoOutput) ∧
    (∀ img, findOutputImage entries = .ok img →
      ∃ p ∈ entries, p.2.images.head? = some img) ∧
    (∀ pre key out img post,
      entries = pre ++ (key, out) :: post →
      (∀ q ∈ pre, q.2.images = []) →
      out.images.head? = some img →
      findOutputImage entries = .ok img) := by
  refine ⟨?_, ?_, ?_⟩
  · intro hall
    induction entries with
    | nil => rfl
    | cons p rest ih =>
      obtain ⟨key, out⟩ := p
      have hp : out.images = [] := hall (key, out) (List.mem_cons_self _ _)
      rw [findOutputImage, hp]
      exact ih fun q hq => hall q (List.mem_cons_of_mem _ hq)
  · intro img
    induction entries with
    | nil => intro h; cases h
    | cons p rest ih =>
      obtain ⟨key, out⟩ := p
      intro h
      match himg : out.images with
      | [] =>
        rw [findOutputImage, himg] at h
        obtain ⟨q, hq, hh⟩ := ih h
        exact ⟨q, List.mem_cons_of_mem _ hq, hh⟩
      | i :: rest' =>
        rw [findOutputImage, himg] at h
        refine ⟨(key, out), List.mem_cons_self _ _, ?_⟩
        cases h
        simp [himg]
  · intro pre key out img post hsplit hpre hhead
    subst hsplit
    induction pre with
    | nil =>
      match himg : out.images with
      | [] => rw [himg] at hhead; cases hhead
      | i :: rest' =>
        rw [himg] at hhead
        simp only [List.head?_cons, Option.some.injEq] at hhead
        subst hhead
        simp [findOutputImage, himg]
    | cons q qre ih =>
      obtain ⟨qk, qo⟩ := q
      have hq : qo.images = [] := hpre (qk, qo) (List.mem_cons_self _ _)
      simp only [List.cons_append, findOutputImage, hq]
      exact ih fun r hr => hpre r (List.mem_cons_of_mem _ hr)

/-- Witness for C4 amended at concrete ledgers. -/
theorem output_selection_spec_witness :
    findOutputImage [("7", NodeOutput.mk []), ("8", NodeOutput.mk [])] =
      .error genErrNoOutput ∧
    findOutputImage [("7", NodeOutput.mk []),
                     ("9", NodeOutput.mk [⟨"out.png", "", "output"⟩])] =
      .ok ⟨"out.png", "", "output"⟩ :=
  ⟨(output_selection_spec [("7", NodeOutput.mk []), ("8", NodeOutput.mk [])]).1
     (by decide),
   (output_selection_spec [("7", NodeOutput.mk []),
      ("9", NodeOutput.mk [⟨"out.png", "", "output"⟩])]).2.2
     [("7", NodeOutput.mk [])] "9" (NodeOutput.mk [⟨"out.png", "", "output"⟩])
     ⟨"out.png", "", "output"⟩ [] rfl (by decide) rfl⟩

theorem hexVal_hexDigitChar : ∀ n < 16, hexVal (hexDigitChar n) = some n := by decide

/-- Round trip for one escaped character at the head of a string body. -/
theorem parseStringBody_escChar (c : Char) (tail : List Char) :
    parseStringBody (escChar c ++ tail) = consFst c (parseStringBody tail) := by
  by_cases h1 : c = '"'
  · subst h1
    rw [show escChar '"' ++ tail = '\\' :: '"' :: tail from rfl, parseStringBody.eq_def]
    simp +decide
  · by_cases h2 : c = '\\'
    · subst h2
      rw [show escChar '\\' ++ tail = '\\' :: '\\' :: tail from rfl, parseStringBody.eq_def]
      simp +decide
    · by_cases h3 : c.toNat < 32
      · by_cases h4 : c = Char.ofNat 10
        · subst h4
          rw [show escChar (Char.ofNat 10) ++ tail = '\\' :: 'n' :: tail from rfl,
            parseStringBody.eq_def]
          simp +decide
        · by_cases h5 : c = Char.ofNat 13
          · subst h5
            rw [show escChar (Char.ofNat 13) ++ tail = '\\' :: 'r' :: tail from rfl,
              parseStringBody.eq_def]
            simp +decide
          · by_cases h6 : c = Char.ofNat 9
            · subst h6
              rw [show escChar (Char.ofNat 9) ++ tail = '\\' :: 't' :: tail from rfl,
                parseStringBody.eq_def]
              simp +decide
            · have hesc : escChar c =
                  ['\\', 'u', '0', '0', hexDigitChar (c.toNat / 16),
                   hexDigitChar (c.toNat % 16)] := by
                simp [escChar, h1, h2, h3, h4, h5, h6]
              have hdiv : c.toNat / 16 < 16 := by omega
              have hmod : c.toNat % 16 < 16 := Nat.mod_lt _ (by omega)
              rw [hesc]
              rw [show (['\\', 'u', '0', '0', hexDigitChar (c.toNat / 16),
                    hexDigitChar (c.toNat % 16)] : List Char) ++ tail =
                  '\\' :: 'u' :: '0' :: '0' :: hexDigitChar (c.toNat / 16) ::
                    hexDigitChar (c.toNat % 16) :: tail from rfl,
                parseStringBody.eq_def]
              simp +decide [hexVal_hexDigitChar _ hdiv, hexVal_hexDigitChar _ hmod,
                show hexVal '0' = some 0 from rfl]
              rw [show 16 * (c.toNat / 16) + c.toNat % 16 = c.toNat by omega,
                Char.ofNat_toNat]
      · by_cases h7 : c = '<'
        · subst h7
          rw [show escChar '<' ++ tail =
              '\\' :: 'u' :: '0' :: '0' :: '3' :: 'c' :: tail from rfl,
            parseStringBody.eq_def]
          simp +decide
          rfl
        · by_cases h8 : c = '>'
          · subst h8
            rw [show escChar '>' ++ tail =
                '\\' :: 'u' :: '0' :: '0' :: '3' :: 'e' :: tail from rfl,
              parseStringBody.eq_def]
            simp +decide
            rfl
          · by_cases h9 : c = '&'
            · subst h9
              rw [show escChar '&' ++ tail =
                  '\\' :: 'u' :: '0' :: '0' :: '2' :: '6' :: tail from rfl,
                parseStringBody.eq_def]
              simp +decide
              rfl
            · by_cases h10 : c.toNat = 8232
              · have hc : c = Char.ofNat 8232 := by
                  rw [← h10, Char.ofNat_toNat]
                subst hc
                rw [show escChar (Char.ofNat 8232) ++ tail =
                    '\\' :: 'u' :: '2' :: '0' :: '2' :: '8' :: tail from rfl,
                  parseStringBody.eq_def]
                simp +decide
                rfl
              · by_cases h11 : c.toNat = 8233
                · have hc : c = Char.ofNat 8233 := by
                    rw [← h11, Char.ofNat_toNat]
                  subst hc
                  rw [show escChar (Char.ofNat 8233) ++ tail =
                      '\\' :: 'u' :: '2' :: '0' :: '2' :: '9' :: tail from rfl,
                    parseStringBody.eq_def]
                  simp +decide
                  rfl
                · have hesc : escChar c = [c] := by
                    simp [escChar, h1, h2, h3, h7, h8, h9, h10, h11]
                  rw [hesc, List.singleton_append, parseStringBody.eq_def]
                  simp [h1, h2, h3]

/-- Escaping then decoding a whole string body is the identity: decoding
`escapeChars s` followed by the closing quote yields exactly `s` and the
remaining input. -/
theorem parseStringBody_escape (s rest : List Char) :
    parseStringBody (escapeChars s ++ '"' :: rest) = some (s, rest) := by
  induction s with
  | nil =>
    rw [escapeChars, List.nil_append, parseStringBody.eq_def]
    simp
  | cons c cs ih =>
    rw [escapeChars, List.append_assoc, parseStringBody_escChar, ih]
    rfl

theorem replaceAllGo_cons_no_match {old : List Char} {c : Char} {rest : List Char}
    (h : old.isPrefixOf (c :: rest) = false) (new : List Char) :
    replaceAllGo (c :: rest) old new = c :: replaceAllGo rest old new := by
  rw [replaceAllGo]
  rw [if_neg]
  intro hcon
  rw [hcon.1] at h
  cases h

/-- Scanning a chunk in which no occurrence of `old` starts — not even one
straddling into the following text — copies the chunk verbatim. -/
theorem replaceAllGo_skip (a : List Char) {t old : List Char} (new : List Char)
    (h : ∀ i < a.length, old.isPrefixOf ((a ++ t).drop i) = false) :
    replaceAllGo (a ++ t) old new = a ++ replaceAllGo t old new := by
  induction a with
  | nil => simp
  | cons c a' ih =>
    have h0 : old.isPrefixOf (c :: (a' ++ t)) = false := by
      simpa using h 0 (by simp)
    rw [List.cons_append, replaceAllGo_cons_no_match h0]
    refine congrArg (c :: ·) (ih fun i hi => ?_)
    simpa using h (i + 1) (by simpa)

/-- An occurrence of `old` at the scan position is consumed and replaced. -/
theorem replaceAllGo_head {old : List Char} (t new : List Char) (hne : old ≠ []) :
    replaceAllGo (old ++ t) old new = new ++ replaceAllGo t old new := by
  match old, hne with
  | o :: old', _ =>
    have hpre : (o :: old').isPrefixOf ((o :: old') ++ t) = true := by
      rw [List.isPrefixOf_iff_prefix]
      exact List.prefix_append _ _
    rw [List.cons_append, replaceAllGo, if_pos ⟨by rw [← List.cons_append]; exact hpre, by simp⟩]
    simp [List.drop_left']

theorem noStraddle_of_bounded (segs : List Seg)
    (h : ∀ i < (render segs PromptPlaceholder).length,
      PromptPlaceholder.isPrefixOf ((render segs PromptPlaceholder).drop i) = true →
      holeStart segs i = true) :
    NoStraddle segs := by
  intro i hpre
  by_cases hi : i < (render segs PromptPlaceholder).length
  · exact h i hi hpre
  · exfalso
    rw [List.drop_eq_nil_of_le (by omega)] at hpre
    cases hpre

/-- Replacing every occurrence of the placeholder in the rendered template
yields the rendering with the replacement spliced into each hole, provided
the placeholder occurs only at the holes. -/
theorem replaceAllGo_render (segs : List Seg) (new : List Char) (h : NoStraddle segs) :
    replaceAllGo (render segs PromptPlaceholder) PromptPlaceholder new =
      render segs new := by
  induction segs with
  | nil =>
    rw [render, render, replaceAllGo]
  | cons sg segs ih =>
    cases sg with
    | hole =>
      rw [render, render,
        replaceAllGo_head _ _ (by simp [PromptPlaceholder])]
      refine congrArg (_ ++ ·) (ih ?_)
      intro i hpre
      have hdropPH : ((PromptPlaceholder ++ render segs PromptPlaceholder).drop
          (PromptPlaceholder.length + i)) = (render segs PromptPlaceholder).drop i := by
        rw [← List.drop_drop, List.drop_left]
      have hmain := h (PromptPlaceholder.length + i) (by rw [render, hdropPH]; exact hpre)
      rw [holeStart] at hmain
      rw [if_neg (by simp [PromptPlaceholder]), if_pos (by omega)] at hmain
      simpa using hmain
    | lit cs =>
      rw [render, render, replaceAllGo_skip cs new ?hno]
      · refine congrArg (_ ++ ·) (ih ?_)
        intro i hpre
        have hdrop : ((cs ++ render segs PromptPlaceholder).drop (cs.length + i)) =
            (render segs PromptPlaceholder).drop i := by
          rw [← List.drop_drop, List.drop_left]
        have hmain := h (cs.length + i) (by rw [render, hdrop]; exact hpre)
        rw [holeStart, if_pos (by omega)] at hmain
        simpa using hmain
      · intro i hi
        by_contra hcon
        have hpre : PromptPlaceholder.isPrefixOf
            ((cs ++ render segs PromptPlaceholder).drop i) = true := by
          revert hcon
          cases PromptPlaceholder.isPrefixOf ((cs ++ render segs PromptPlaceholder).drop i)
          · intro hc; exact absurd rfl hc
          · intro _; rfl
        have hmain := h i (by rw [render]; exact hpre)
        rw [holeStart, if_neg (by omega)] at hmain
        cases hmain

theorem digitChar_facts : ∀ d < 10,
    isDigitCh (Char.ofNat (48 + d)) = true ∧
    isWs (Char.ofNat (48 + d)) = false ∧
    (Char.ofNat (48 + d)).toNat = 48 + d ∧
    Char.ofNat (48 + d) ≠ 'n' ∧ Char.ofNat (48 + d) ≠ 't' ∧
    Char.ofNat (48 + d) ≠ 'f' ∧ Char.ofNat (48 + d) ≠ '"' ∧
    Char.ofNat (48 + d) ≠ '[' ∧ Char.ofNat (48 + d) ≠ Char.ofNat 123 ∧
    Char.ofNat (48 + d) ≠ '-' ∧ Char.ofNat (48 + d) ≠ ']' ∧
    Char.ofNat (48 + d) ≠ Char.ofNat 125 ∧ Char.ofNat (48 + d) ≠ ',' := by decide

theorem natToDigits_shape (n : Nat) :
    ∃ d cs, d < 10 ∧ natToDigits n = Char.ofNat (48 + d) :: cs := by
  induction n using Nat.strong_induction_on with
  | _ n ih =>
    by_cases h : n < 10
    · exact ⟨n, [], h, by rw [natToDigits, if_pos h]⟩
    · obtain ⟨d, cs, hd, heq⟩ := ih (n / 10) (Nat.div_lt_self (by omega) (by omega))
      refine ⟨d, cs ++ [Char.ofNat (48 + n % 10)], hd, ?_⟩
      rw [natToDigits, if_neg h, heq]
      rfl

theorem parseNat_stop (rest : List Char) (acc : Nat) (h : digitHeadFree rest = true) :
    parseNat rest acc = (acc, rest) := by
  cases rest with
  | nil => rfl
  | cons c t =>
    have hc : isDigitCh c = false := by
      revert h
      rw [digitHeadFree]
      cases isDigitCh c <;> simp
    rw [parseNat, if_neg (by simp [hc])]

theorem parseNat_digits (n : Nat) : ∀ (acc : Nat) (rest : List Char),
    parseNat (natToDigits n ++ rest) acc =
      parseNat rest (acc * 10 ^ (natToDigits n).length + n) := by
  induction n using Nat.strong_induction_on with
  | _ n ih =>
    intro acc rest
    by_cases h : n < 10
    · rw [natToDigits, if_pos h, List.singleton_append, List.length_singleton]
      obtain ⟨hdig, -, htoNat, -⟩ := digitChar_facts n h
      rw [parseNat, if_pos hdig, htoNat]
      congr 1
      rw [pow_one]
      omega
    · have hdiv : n / 10 < n := Nat.div_lt_self (by omega) (by omega)
      have h10 : n % 10 < 10 := Nat.mod_lt _ (by omega)
      obtain ⟨hdig, -, htoNat, -⟩ := digitChar_facts (n % 10) h10
      rw [natToDigits, if_neg h, List.append_assoc, List.singleton_append,
        ih (n / 10) hdiv, parseNat, if_pos hdig, htoNat, List.length_append,
        List.length_singleton]
      congr 1
      rw [pow_succ, ← mul_assoc]
      generalize acc * 10 ^ (natToDigits (n / 10)).length = q
      omega

theorem skipWs_cons {c : Char} (t : List Char) (h : isWs c = false) :
    skipWs (c :: t) = c :: t := by
  rw [skipWs, if_neg (by rw [h]; exact Bool.false_ne_true)]

theorem skipWs_cons' {c : Char} (h : isWs c = false) (t : List Char) :
    skipWs (c :: t) = c :: t := skipWs_cons t h

theorem startOk_facts : ∀ c, startOk c = true →
    isWs c = false ∧ c ≠ ']' ∧ c ≠ Char.ofNat 125 ∧ c ≠ ',' ∧ c ≠ ':' := by
  intro c h
  simp only [startOk, Bool.or_eq_true, decide_eq_true_eq] at h
  rcases h with h | h | h | h | h | h | h | h
  · simp only [isDigitCh, decide_eq_true_eq] at h
    refine ⟨?_, fun he => absurd h (by rw [he]; decide),
      fun he => absurd h (by rw [he]; decide),
      fun he => absurd h (by rw [he]; decide),
      fun he => absurd h (by rw [he]; decide)⟩
    rw [isWs]
    apply decide_eq_false
    rintro (rfl | rfl | rfl | rfl) <;> exact absurd h (by decide)
  · subst h; decide
  · subst h; decide
  · subst h; decide
  · subst h; decide
  · subst h; decide
  · subst h; decide
  · subst h; decide

theorem serialize_shape : ∀ v : Json, ∃ c cs, serialize v = c :: cs ∧ startOk c = true := by
  intro v
  cases v with
  | null => exact ⟨'n', ['u', 'l', 'l'], by rw [serialize]; rfl, by decide⟩
  | bool b =>
    cases b with
    | true => exact ⟨'t', ['r', 'u', 'e'], by rw [serialize]; rfl, by decide⟩
    | false => exact ⟨'f', ['a', 'l', 's', 'e'], by rw [serialize]; rfl, by decide⟩
  | num n =>
    by_cases hn : n < 0
    · exact ⟨'-', _, by rw [serialize, intToChars, if_pos hn], by decide⟩
    · obtain ⟨d, cs, hd, heq⟩ := natToDigits_shape n.natAbs
      refine ⟨Char.ofNat (48 + d), cs, by rw [serialize, intToChars, if_neg hn, heq], ?_⟩
      rw [startOk, (digitChar_facts d hd).1]
      rfl
  | str s => exact ⟨'"', _, by rw [serialize], by decide⟩
  | arr xs => exact ⟨'[', _, by rw [serialize], by decide⟩
  | obj fs => exact ⟨Char.ofNat 123, _, by rw [serialize], by decide⟩

theorem jsize_pos : ∀ v : Json, 1 ≤ jsize v := by
  intro v
  cases v <;> rw [jsize] <;> omega

mutual

theorem parseVal_serialize (v : Json) (fuel : Nat) (rest : List Char)
    (hsz : jsize v ≤ fuel) (hrest : digitHeadFree rest = true) :
    parseVal fuel (serialize v ++ rest) = some (v, rest) := by
  cases fuel with
  | zero => exact absurd hsz (by have := jsize_pos v; omega)
  | succ fuel =>
    cases v with
    | null =>
      rw [serialize,
        show nullChars ++ rest = 'n' :: 'u' :: 'l' :: 'l' :: rest from rfl,
        parseVal, skipWs_cons _ (by decide)]
      simp +decide
    | bool b =>
      cases b with
      | true =>
        rw [serialize,
          show trueChars ++ rest = 't' :: 'r' :: 'u' :: 'e' :: rest from rfl,
          parseVal, skipWs_cons _ (by decide)]
        simp +decide
      | false =>
        rw [serialize,
          show falseChars ++ rest = 'f' :: 'a' :: 'l' :: 's' :: 'e' :: rest from rfl,
          parseVal, skipWs_cons _ (by decide)]
        simp +decide
    | num n =>
      rw [serialize]
      by_cases hn : n < 0
      · obtain ⟨d, cs, hd, heq⟩ := natToDigits_shape n.natAbs
        obtain ⟨hdig, hnw, htoNat, hne⟩ := digitChar_facts d hd
        rw [intToChars, if_pos hn, List.cons_append, parseVal, skipWs_cons _ (by decide),
          heq, List.cons_append]
        simp +decide [hdig]
        rw [← List.cons_append, ← heq, parseNat_digits, Nat.zero_mul, Nat.zero_add,
          parseNat_stop _ _ hrest]
        refine ⟨by omega, rfl⟩
      · obtain ⟨d, cs, hd, heq⟩ := natToDigits_shape n.natAbs
        obtain ⟨hdig, hnw, htoNat, hne1, hne2, hne3, hne4, hne5, hne6, hne7, hne⟩ :=
          digitChar_facts d hd
        rw [intToChars, if_neg hn, heq, List.cons_append, parseVal, skipWs_cons _ hnw]
        simp +decide [hdig, hne1, hne2, hne3, hne4, hne5, hne6, hne7]
        rw [← List.cons_append, ← heq, parseNat_digits, Nat.zero_mul, Nat.zero_add,
          parseNat_stop _ _ hrest]
        refine ⟨by omega, rfl⟩
    | str s =>
      rw [serialize, List.cons_append, List.append_assoc, List.singleton_append,
        parseVal, skipWs_cons _ (by decide)]
      simp +decide [parseStringBody_escape]
    | arr xs =>
      cases xs with
      | nil =>
        rw [serialize, serializeItems, List.nil_append, List.cons_append,
          List.singleton_append, parseVal, skipWs_cons _ (by decide)]
        simp +decide [skipWs]
      | cons x xs =>
        obtain ⟨cx, csx, hx, hok⟩ := serialize_shape x
        obtain ⟨hnw, hne1, hne2, hne3, hne4⟩ := startOk_facts cx hok
        have hhead : ∃ t, serializeItems (x :: xs) = cx :: t := by
          cases xs with
          | nil => exact ⟨csx, by rw [serializeItems, hx]⟩
          | cons y ys =>
            exact ⟨csx ++ ',' :: serializeItems (y :: ys), by simp [serializeItems, hx]⟩
        obtain ⟨t, ht⟩ := hhead
        have hitems : parseItems fuel (serializeItems (x :: xs) ++ ']' :: rest) =
            some (x :: xs, rest) :=
          parseItems_serialize (x :: xs) fuel rest (List.cons_ne_nil _ _)
            (by rw [jsize] at hsz; omega)
        rw [serialize, List.cons_append, List.append_assoc, List.singleton_append,
          parseVal, skipWs_cons _ (by decide)]
        rw [ht, List.cons_append] at hitems ⊢
        simp +decide [skipWs_cons' hnw, hne1, hitems]
    | obj fs =>
      cases fs with
      | nil =>
        rw [serialize, serializeFields, List.nil_append, List.cons_append,
          List.singleton_append, parseVal, skipWs_cons _ (by decide)]
        simp +decide [skipWs]
      | cons f fs =>
        have hhead : ∃ t, serializeFields (f :: fs) = '"' :: t := by
          obtain ⟨k, v⟩ := f
          cases fs with
          | nil => exact ⟨_, by rw [serializeFields]⟩
          | cons g gs =>
            exact ⟨(escapeChars k ++ '"' :: ':' :: serialize v) ++
              ',' :: serializeFields (g :: gs), by simp [serializeFields]⟩
        obtain ⟨t, ht⟩ := hhead
        have hfields : parseFields fuel
            (serializeFields (f :: fs) ++ Char.ofNat 125 :: rest) =
            some (f :: fs, rest) :=
          parseFields_serialize (f :: fs) fuel rest (List.cons_ne_nil _ _)
            (by rw [jsize] at hsz; omega)
        rw [serialize, List.cons_append, List.append_assoc, List.singleton_append,
          parseVal, skipWs_cons _ (by decide)]
        rw [ht, List.cons_append] at hfields ⊢
        simp +decide [skipWs, hfields]

theorem parseItems_serialize (xs : List Json) (fuel : Nat) (rest : List Char)
    (hne : xs ≠ []) (hsz : itemsSize xs ≤ fuel) :
    parseItems fuel (serializeItems xs ++ ']' :: rest) = some (xs, rest) := by
  cases fuel with
  | zero =>
    exfalso
    cases xs with
    | nil => exact hne rfl
    | cons x xs => rw [itemsSize] at hsz; omega
  | succ fuel =>
    cases xs with
    | nil => exact absurd rfl hne
    | cons x xs =>
      rw [itemsSize] at hsz
      cases xs with
      | nil =>
        rw [serializeItems, parseItems,
          parseVal_serialize x fuel (']' :: rest) (by omega)
            (by rw [digitHeadFree]; decide)]
        simp +decide [skipWs]
      | cons y ys =>
        have hser : serializeItems (x :: y :: ys) =
            serialize x ++ ',' :: serializeItems (y :: ys) := by
          simp [serializeItems]
        rw [hser, List.append_assoc, List.cons_append, parseItems,
          parseVal_serialize x fuel (',' :: (serializeItems (y :: ys) ++ ']' :: rest))
            (by omega) (by rw [digitHeadFree]; decide)]
        simp +decide [skipWs,
          parseItems_serialize (y :: ys) fuel rest (List.cons_ne_nil _ _) (by omega)]

theorem parseFields_serialize (fs : List (List Char × Json)) (fuel : Nat)
    (rest : List Char) (hne : fs ≠ []) (hsz : fieldsSize fs ≤ fuel) :
    parseFields fuel (serializeFields fs ++ Char.ofNat 125 :: rest) =
      some (fs, rest) := by
  cases fuel with
  | zero =>
    exfalso
    cases fs with
    | nil => exact hne rfl
    | cons f fs => obtain ⟨k, v⟩ := f; rw [fieldsSize] at hsz; omega
  | succ fuel =>
    cases fs with
    | nil => exact absurd rfl hne
    | cons f fs =>
      obtain ⟨k, v⟩ := f
      cases fs with
      | nil =>
        rw [fieldsSize] at hsz
        rw [serializeFields, List.cons_append, List.append_assoc, List.cons_append,
          List.cons_append, parseFields, skipWs_cons _ (by decide)]
        simp +decide [skipWs, parseStringBody_escape,
          parseVal_serialize v fuel (Char.ofNat 125 :: rest) (by omega)
            (by rw [digitHeadFree]; decide)]
      | cons g gs =>
        rw [fieldsSize] at hsz
        have hserf : serializeFields ((k, v) :: g :: gs) =
            ('"' :: (escapeChars k ++ '"' :: ':' :: serialize v)) ++
              ',' :: serializeFields (g :: gs) := by
          simp [serializeFields]
        rw [hserf, List.append_assoc, List.cons_append, List.cons_append,
          List.append_assoc, List.cons_append, List.cons_append, parseFields,
          skipWs_cons _ (by decide)]
        simp +decide [skipWs, parseStringBody_escape,
          parseVal_serialize v fuel
            (',' :: (serializeFields (g :: gs) ++ Char.ofNat 125 :: rest))
            (by omega) (by rw [digitHeadFree]; decide),
          parseFields_serialize (g :: gs) fuel rest (List.cons_ne_nil _ _) (by omega)]

end

mutual

theorem jsize_le_serialize (v : Json) : jsize v ≤ (serialize v).length := by
  cases v with
  | null => rw [jsize, serialize]; simp [nullChars]
  | bool b => cases b <;> rw [jsize, serialize] <;> simp [trueChars, falseChars]
  | num n =>
    rw [jsize, serialize, intToChars]
    by_cases hn : n < 0
    · obtain ⟨d, cs, hd, heq⟩ := natToDigits_shape n.natAbs
      rw [if_pos hn, heq]
      simp
    · obtain ⟨d, cs, hd, heq⟩ := natToDigits_shape n.natAbs
      rw [if_neg hn, heq]
      simp
  | str s => rw [jsize, serialize]; simp
  | arr xs =>
    have h := itemsSize_le_serialize xs
    rw [jsize, serialize]
    simp only [List.length_cons, List.length_append, List.length_singleton]
    omega
  | obj fs =>
    have h := fieldsSize_le_serialize fs
    rw [jsize, serialize]
    simp only [List.length_cons, List.length_append, List.length_singleton]
    omega

theorem itemsSize_le_serialize (xs : List Json) :
    itemsSize xs ≤ (serializeItems xs).length + 1 := by
  cases xs with
  | nil => rw [itemsSize]; omega
  | cons x xs =>
    cases xs with
    | nil =>
      have h := jsize_le_serialize x
      rw [itemsSize, itemsSize, serializeItems]
      omega
    | cons y ys =>
      have h1 := jsize_le_serialize x
      have h2 := itemsSize_le_serialize (y :: ys)
      have hser : serializeItems (x :: y :: ys) =
          serialize x ++ ',' :: serializeItems (y :: ys) := by
        simp [serializeItems]
      rw [itemsSize, hser, List.length_append, List.length_cons]
      omega

theorem fieldsSize_le_serialize (fs : List (List Char × Json)) :
    fieldsSize fs ≤ (serializeFields fs).length + 1 := by
  cases fs with
  | nil => rw [fieldsSize]; omega
  | cons f fs =>
    obtain ⟨k, v⟩ := f
    cases fs with
    | nil =>
      have h := jsize_le_serialize v
      rw [fieldsSize, fieldsSize, serializeFields]
      simp only [List.length_cons, List.length_append]
      omega
    | cons g gs =>
      have h1 := jsize_le_serialize v
      have h2 := fieldsSize_le_serialize (g :: gs)
      have hser : serializeFields ((k, v) :: g :: gs) =
          ('"' :: (escapeChars k ++ '"' :: ':' :: serialize v)) ++
            ',' :: serializeFields (g :: gs) := by
        simp [serializeFields]
      rw [fieldsSize, hser, List.length_append, List.length_cons]
      simp only [List.length_cons, List.length_append]
      omega

end

/-- Parsing a serialized document recovers it exactly. -/
theorem parseJsonTop_serialize (v : Json) : parseJsonTop (serialize v) = some v := by
  have h1 : parseVal ((serialize v).length + 1) (serialize v ++ []) = some (v, []) :=
    parseVal_serialize v _ [] (by have := jsize_le_serialize v; omega) rfl
  rw [List.append_nil] at h1
  rw [parseJsonTop, h1]
  rfl

theorem parseJsonObj_serialize (fs : List (List Char × Json)) :
    parseJsonObj (serialize (.obj fs)) = some fs := by
  rw [parseJsonObj, parseJsonTop_serialize]

theorem render_append (s1 s2 : List Seg) (x : List Char) :
    render (s1 ++ s2) x = render s1 x ++ render s2 x := by
  induction s1 with
  | nil => simp [render]
  | cons sg s1 ih => cases sg <;> simp [render, ih]

mutual

theorem render_segs_fill (t : JTmpl) (p : List Char) :
    render (serializeSegs t) (escapeChars p) = serialize (fill t p) := by
  cases t with
  | null => rw [serializeSegs, fill, serialize]; simp [render]
  | bool b => cases b <;> rw [serializeSegs, fill] <;> simp [serialize, render]
  | num n => rw [serializeSegs, fill, serialize]; simp [render]
  | str s => rw [serializeSegs, fill, serialize]; simp [render]
  | hole => rw [serializeSegs, fill, serialize]; simp [render]
  | arr xs =>
    have h := render_segsItems_fill xs p
    rw [serializeSegs, fill, serialize, render, render_append, h]
    simp [render]
  | obj fs =>
    have h := render_segsFields_fill fs p
    rw [serializeSegs, fill, serialize, render, render_append, h]
    simp [render]

theorem render_segsItems_fill (xs : List JTmpl) (p : List Char) :
    render (segsItems xs) (escapeChars p) = serializeItems (fillList xs p) := by
  cases xs with
  | nil => rw [segsItems, fillList, serializeItems]; rfl
  | cons x xs =>
    cases xs with
    | nil =>
      rw [segsItems, fillList, fillList, serializeItems]
      exact render_segs_fill x p
    | cons y ys =>
      have h1 := render_segs_fill x p
      have h2 := render_segsItems_fill (y :: ys) p
      have hsegs : segsItems (x :: y :: ys) =
          serializeSegs x ++ .lit [','] :: segsItems (y :: ys) := by
        simp [segsItems]
      have hfl : fillList (y :: ys) p = fill y p :: fillList ys p := by
        rw [fillList]
      have hser : serializeItems (fill x p :: fillList (y :: ys) p) =
          serialize (fill x p) ++ ',' :: serializeItems (fillList (y :: ys) p) := by
        rw [hfl]
        simp [serializeItems]
      rw [hsegs, render_append, render, h1,
        show fillList (x :: y :: ys) p = fill x p :: fillList (y :: ys) p from by
          rw [fillList],
        hser, ← h2]
      simp

theorem render_segsFields_fill (fs : List (List Char × JTmpl)) (p : List Char) :
    render (segsFields fs) (escapeChars p) = serializeFields (fillFields fs p) := by
  cases fs with
  | nil => rw [segsFields, fillFields, serializeFields]; rfl
  | cons f fs =>
    obtain ⟨k, v⟩ := f
    cases fs with
    | nil =>
      have h := render_segs_fill v p
      rw [segsFields, fillFields, fillFields, serializeFields, render, h]
      simp
    | cons g gs =>
      have h1 := render_segs_fill v p
      have h2 := render_segsFields_fill (g :: gs) p
      have hsegs : segsFields ((k, v) :: g :: gs) =
          (.lit ('"' :: (escapeChars k ++ '"' :: [':'])) :: serializeSegs v) ++
            .lit [','] :: segsFields (g :: gs) := by
        simp [segsFields]
      have hff : fillFields ((k, v) :: g :: gs) p =
          (k, fill v p) :: fillFields (g :: gs) p := by
        rw [fillFields]
      have hffc : ∃ q qs, fillFields (g :: gs) p = q :: qs := by
        obtain ⟨gk, gv⟩ := g
        exact ⟨(gk, fill gv p), fillFields gs p, by rw [fillFields]⟩
      obtain ⟨q, qs, hq⟩ := hffc
      have hser : serializeFields ((k, fill v p) :: fillFields (g :: gs) p) =
          ('"' :: (escapeChars k ++ '"' :: ':' :: serialize (fill v p))) ++
            ',' :: serializeFields (fillFields (g :: gs) p) := by
        rw [hq]
        simp [serializeFields]
      rw [hsegs, render_append, render, render, h1, h2, hff, hser]
      simp

end

theorem fillFields_append (a b : List (List Char × JTmpl)) (p : List Char) :
    fillFields (a ++ b) p = fillFields a p ++ fillFields b p := by
  induction a with
  | nil => rw [List.nil_append, fillFields, List.nil_append]
  | cons f a ih =>
    obtain ⟨k, v⟩ := f
    rw [List.cons_append, fillFields, ih, fillFields, List.cons_append]

/-- C2: for every user prompt `p` — quotes, backslashes, newlines and the
placeholder token itself included — and every template whose placeholder
occurrences sit inside JSON string literals (a template of shape
`render (serializeSegs (.obj fs)) PromptPlaceholder`, with the placeholder
occurring only at the designated holes), `PrepareWorkflow` parses
successfully and returns exactly the template document with each
placeholder field's decoded value equal to the literal prompt:
escape–substitute–reparse is lossless. -/
theorem prepare_workflow_roundtrip (fs : List (List Char × JTmpl)) (p : List Char)
    (hocc : NoStraddle (serializeSegs (.obj fs))) :
    PrepareWorkflow (render (serializeSegs (.obj fs)) PromptPlaceholder) p =
      some (fillFields fs p) ∧
    ∀ (k : List Char) (pre post : List (List Char × JTmpl)),
      fs = pre ++ (k, JTmpl.hole) :: post →
      fillFields fs p = fillFields pre p ++ (k, Json.str p) :: fillFields post p := by
  constructor
  · rw [PrepareWorkflow, sanitizeForJSON, replaceAllGo_render _ _ hocc, render_segs_fill,
      show fill (.obj fs) p = .obj (fillFields fs p) from by rw [fill],
      parseJsonObj_serialize]
  · intro k pre post hsplit
    subst hsplit
    rw [fillFields_append, fillFields, fill]

/-- Witness for C2 at the template `{"k":"{{PROMPT}}"}` and a prompt
containing a quote, a backslash, a newline and the placeholder token
itself. -/
theorem prepare_workflow_roundtrip_witness :
    PrepareWorkflow
      (render (serializeSegs (JTmpl.obj [(['k'], JTmpl.hole)])) PromptPlaceholder)
      ('A' :: '"' :: '\\' :: Char.ofNat 10 :: PromptPlaceholder) =
      some [(['k'],
        Json.str ('A' :: '"' :: '\\' :: Char.ofNat 10 :: PromptPlaceholder))] := by
  have hsegs : serializeSegs (JTmpl.obj [(['k'], JTmpl.hole)]) =
      [Seg.lit [Char.ofNat 123], Seg.lit ('"' :: (escapeChars ['k'] ++ '"' :: [':'])),
       Seg.lit ['"'], Seg.hole, Seg.lit ['"'], Seg.lit [Char.ofNat 125]] := by
    rw [serializeSegs, segsFields, serializeSegs]
    rfl
  have hocc : NoStraddle (serializeSegs (JTmpl.obj [(['k'], JTmpl.hole)])) := by
    apply noStraddle_of_bounded
    rw [hsegs]
    decide
  have h := (prepare_workflow_roundtrip [(['k'], JTmpl.hole)]
    ('A' :: '"' :: '\\' :: Char.ofNat 10 :: PromptPlaceholder) hocc).1
  rw [h, fillFields, fillFields, fill]

/-- C8: a `Reload` whose file is unreadable, not valid JSON, or missing
the `{{PROMPT}}` placeholder returns the corresponding configuration
error, and in every error case the in-memory template bytes are exactly
what they were before the call — the template is never cleared. -/
theorem workflow_reload_preserves_template (current : List Char)
    (fileData : Except GoErr (List Char)) :
    (∀ e, fileData = .error e →
      workflowReload current fileData = (current, some (.readError e))) ∧
    (∀ data, fileData = .ok data → parseJsonObj data = none →
      workflowReload current fileData = (current, some .invalidJSON)) ∧
    (∀ data fs, fileData = .ok data → parseJsonObj data = some fs →
      containsSeq data PromptPlaceholder = false →
      workflowReload current fileData = (current, some .missingPlaceholder)) ∧
    (∀ err, (workflowReload current fileData).2 = some err →
      (workflowReload current fileData).1 = current) := by
  refine ⟨?_, ?_, ?_, ?_⟩
  · intro e he
    subst he
    rfl
  · intro data hd hp
    subst hd
    rw [workflowReload, workflowLoad, hp]
  · intro data fs hd hp hc
    subst hd
    rw [workflowReload, workflowLoad, hp]
    simp [hc]
  · intro err
    cases fileData with
    | error e => intro _; rfl
    | ok data =>
      rw [workflowReload, workflowLoad]
      cases hp : parseJsonObj data with
      | none => intro _; rfl
      | some fs =>
        by_cases hc : containsSeq data PromptPlaceholder = true
        · rw [if_pos hc]
          intro h
          cases h
        · rw [if_neg hc]
          intro _
          rfl

/-- Witness for C8 across the three failure modes, with the previously
loaded template left untouched each time. -/
theorem workflow_reload_preserves_template_witness :
    workflowReload ['o', 'l', 'd'] (.error (.base "open: no such file")) =
      (['o', 'l', 'd'], some (.readError (.base "open: no such file"))) ∧
    workflowReload ['o', 'l', 'd'] (.ok ['x']) = (['o', 'l', 'd'], some .invalidJSON) ∧
    workflowReload ['o', 'l', 'd'] (.ok (serialize (Json.obj []))) =
      (['o', 'l', 'd'], some .missingPlaceholder) := by
  have hser : serialize (Json.obj []) = [Char.ofNat 123, Char.ofNat 125] := by
    rw [serialize, serializeFields]
    rfl
  have hx : parseJsonObj ['x'] = none := by
    rw [parseJsonObj, parseJsonTop, parseVal]
    simp +decide [skipWs]
  refine ⟨(workflow_reload_preserves_template _ _).1 _ rfl, ?_, ?_⟩
  · exact (workflow_reload_preserves_template _ _).2.1 ['x'] rfl hx
  · exact (workflow_reload_preserves_template _ _).2.2.1 (serialize (Json.obj [])) [] rfl
      (parseJsonObj_serialize []) (by rw [hser]; decide)

end ComfyBot

